import Mathlib

/-!
# Verification of the PSTT concurrent audio pipeline core

Shallow embedding of the pipeline components of the `pstt` repository
(`src/buffers.rs`, `src/resampler.rs`, `src/writer.rs`, `src/recognition.rs`,
`src/main.rs`) together with proofs and refutations of the specified
properties.

Conventions:
* `f32` amplitude values are modelled as `ℚ`.  Every concrete input used in a
  counterexample or witness is chosen so that the floating-point operations
  the code performs on it are exact (small dyadic rationals, products below
  2^24), so the rational model is faithful at those inputs.
* `Vec<T>`/`VecDeque<T>` are modelled as `List`.
* Fallible calls return `Except String`.
* The rubato `SincFixedIn` resampler is an external collaborator; it is
  modelled by an abstract state type `ρ` with a step function
  `processOne : ρ → List ℚ → ρ × List ℚ` and a frame-count observation
  `ofn : ρ → ℕ` (for `output_frames_next`).
-/

namespace PSTT

/-! ## BlockingQueue (src/buffers.rs)

The mutex/condvar pair only serialises the operations; each public method is
a function of the queue contents alone, so the sequential model below is a
list plus a capacity. -/

structure BlockingQueue (α : Type) where
  queue : List α
  max_size : ℕ
deriving DecidableEq, Repr

/-- `BlockingQueue::new(max_size)` — empty queue with the given capacity. -/
def BlockingQueue.new (α : Type) (max_size : ℕ) : BlockingQueue α :=
  ⟨[], max_size⟩

/-- `BlockingQueue::push` (src/buffers.rs:19-30): batch-atomic enqueue,
rejected in its entirety if it would exceed `max_size`. -/
def BlockingQueue.push (q : BlockingQueue α) (items : List α) :
    Bool × BlockingQueue α :=
  if q.queue.length + items.length > q.max_size then
    (false, q)
  else
    (true, ⟨q.queue ++ items, q.max_size⟩)

/-- `BlockingQueue::push_single` (src/buffers.rs:32-43). -/
def BlockingQueue.push_single (q : BlockingQueue α) (item : α) :
    Bool × BlockingQueue α :=
  if q.queue.length ≥ q.max_size then
    (false, q)
  else
    (true, ⟨q.queue ++ [item], q.max_size⟩)

/-- `BlockingQueue::pop_batch` (src/buffers.rs:45-56).  The real call blocks
on a condition variable while the queue is empty; the model describes the
state at the moment the wait ends, so claims about it carry the hypothesis
that the queue is non-empty.  It removes `min len max_count` front items. -/
def BlockingQueue.pop_batch (q : BlockingQueue α) (max_count : ℕ) :
    List α × BlockingQueue α :=
  let count := min q.queue.length max_count
  (q.queue.take count, ⟨q.queue.drop count, q.max_size⟩)

/-- `BlockingQueue::try_pop_batch` (src/buffers.rs:58-67): non-blocking,
`none` on an empty queue. -/
def BlockingQueue.try_pop_batch (q : BlockingQueue α) (max_count : ℕ) :
    Option (List α) × BlockingQueue α :=
  if q.queue.isEmpty then
    (none, q)
  else
    let count := min q.queue.length max_count
    (some (q.queue.take count), ⟨q.queue.drop count, q.max_size⟩)

/-- `BlockingQueue::len` (src/buffers.rs:69-71). -/
def BlockingQueue.len (q : BlockingQueue α) : ℕ := q.queue.length

/-! ### Operation traces

A single-threaded trace of queue operations (the mutex serialises the real
concurrent history into such a trace).  A blocking `pop_batch` issued on an
empty queue never returns in a single-producer trace, so the trace records
no transition for it. -/

inductive QOp (α : Type) where
  | push (items : List α)
  | pushSingle (item : α)
  | popBatch (max_count : ℕ)
  | tryPopBatch (max_count : ℕ)

/-- Trace state: current queue, batches returned by pops (in pop order) and
pushed batches that were accepted (in push order). -/
structure QTrace (α : Type) where
  q : BlockingQueue α
  pops : List (List α)
  accepted : List (List α)

def QTrace.init (α : Type) (max_size : ℕ) : QTrace α :=
  ⟨BlockingQueue.new α max_size, [], []⟩

/-- One operation of the trace semantics.  A pop that yields a batch appends
it to `pops`; an accepted push appends its batch to `accepted`. -/
def QTrace.step (t : QTrace α) : QOp α → QTrace α
  | .push items =>
    let r := t.q.push items
    ⟨r.2, t.pops, if r.1 then t.accepted ++ [items] else t.accepted⟩
  | .pushSingle item =>
    let r := t.q.push_single item
    ⟨r.2, t.pops, if r.1 then t.accepted ++ [[item]] else t.accepted⟩
  | .popBatch mc =>
    if t.q.queue.isEmpty then t  -- the real call blocks forever here
    else
      let r := t.q.pop_batch mc
      ⟨r.2, t.pops ++ [r.1], t.accepted⟩
  | .tryPopBatch mc =>
    let r := t.q.try_pop_batch mc
    ⟨r.2, t.pops ++ r.1.toList, t.accepted⟩

def QTrace.run (t : QTrace α) (ops : List (QOp α)) : QTrace α :=
  ops.foldl QTrace.step t

/-! ## AudioResampler (src/resampler.rs)

The rubato `SincFixedIn` engine is an external collaborator: it is modelled
by an abstract state type `ρ`, a per-frame step `processOne` (one
`self.resampler.process(&input_frames, None)` call) and an observation
`ofn` for `self.resampler.output_frames_next()`. -/

/-- `f32::clamp(lo, hi)` on a (non-NaN) value. -/
def ratClamp (x lo hi : ℚ) : ℚ :=
  if x < lo then lo else if x > hi then hi else x

/-- `Vec::resize(n, v)`: truncate to `n` or pad with `v` up to `n`. -/
def vecResize (l : List ℚ) (n : ℕ) (v : ℚ) : List ℚ :=
  l.take n ++ List.replicate (n - l.length) v

structure AudioResampler (ρ : Type) where
  rs : ρ
  chunk_size : ℕ
  buffer : List ℚ

/-- The `while self.buffer.len() >= self.chunk_size` loop of
`AudioResampler::process` (src/resampler.rs:53-63): repeatedly slice one
frame of `chunk` samples off the front, feed it to the rubato state, and
concatenate the outputs.  Returns the final rubato state, the remaining
buffer and the concatenated output. -/
def drainChunks {ρ : Type} (processOne : ρ → List ℚ → ρ × List ℚ)
    (chunk : ℕ) (rs : ρ) (buf : List ℚ) : ρ × List ℚ × List ℚ :=
  if h : 0 < chunk ∧ chunk ≤ buf.length then
    let r := processOne rs (buf.take chunk)
    let rest := drainChunks processOne chunk r.1 (buf.drop chunk)
    (rest.1, rest.2.1, r.2 ++ rest.2.2)
  else
    (rs, buf, [])
termination_by buf.length
decreasing_by simp only [List.length_drop]; omega

/-- `AudioResampler::process` (src/resampler.rs:42-66): early-return on an
empty input, otherwise append the input to the carry-over buffer and drain
all complete chunks. -/
def AudioResampler.process {ρ : Type} (processOne : ρ → List ℚ → ρ × List ℚ)
    (st : AudioResampler ρ) (input : List ℚ) : AudioResampler ρ × List ℚ :=
  if input.isEmpty then (st, [])
  else
    let d := drainChunks processOne st.chunk_size st.rs (st.buffer ++ input)
    (⟨d.1, st.chunk_size, d.2.1⟩, d.2.2)

/-- `AudioResampler::flush` (src/resampler.rs:68-91): on a non-empty buffer,
zero-pad (`Vec::resize`) to `chunk_size`, resample that one frame, clear the
buffer, and truncate the output to
`(remaining * output_frames_next / chunk_size) as usize` entries.  The f64
arithmetic of that expression is exact here: both factors are small integers
(product far below 2^53) and for the `chunk_size = 1024` used by
`resampler_thread` the division is by a power of two, so the `as usize`
truncation is the integer floor division modelled below. -/
def AudioResampler.flush {ρ : Type} (processOne : ρ → List ℚ → ρ × List ℚ)
    (ofn : ρ → ℕ) (st : AudioResampler ρ) : AudioResampler ρ × List ℚ :=
  if st.buffer.isEmpty then (st, [])
  else
    let remaining := st.buffer.length
    let chunk := vecResize st.buffer st.chunk_size 0
    let r := processOne st.rs chunk
    let output_len := remaining * ofn r.1 / st.chunk_size
    (⟨r.1, st.chunk_size, []⟩, r.2.take (min output_len r.2.length))

/-! ## resampler_thread (src/resampler.rs:94-215) -/

/-- The stereo→mono averaging applied to a popped batch
(src/resampler.rs:125-131 and 163-169): `samples.chunks(2)` with each chunk
mapped to `(chunk[0] + chunk.get(1).unwrap_or(&0.0)) / 2.0`. -/
def avgPairs : List ℚ → List ℚ
  | [] => []
  | [a] => [(a + 0) / 2]
  | a :: b :: rest => (a + b) / 2 :: avgPairs rest

/-- The branch on `samples.len() % 2 == 0` (src/resampler.rs:125-131):
pairwise-average when the batch length is even, pass through unchanged when
it is odd.  The capture device's channel count plays no role. -/
def monoConvert (samples : List ℚ) : List ℚ :=
  if samples.length % 2 = 0 then avgPairs samples else samples

/-- Per-sample gain with hard clamping (src/resampler.rs:135):
`(s * gain).clamp(-1.0, 1.0)`. -/
def gainClamp (gain s : ℚ) : ℚ := ratClamp (s * gain) (-1) 1

/-- One loop iteration of `resampler_thread` on a popped raw batch
(src/resampler.rs:122-139): stereo→mono by length parity, then per-sample
gain and clamp, then `AudioResampler::process` (which buffers the result
ahead of resampling). -/
def resamplerThreadStep {ρ : Type} (processOne : ρ → List ℚ → ρ × List ℚ)
    (gain : ℚ) (st : AudioResampler ρ) (samples : List ℚ) :
    AudioResampler ρ × List ℚ :=
  st.process processOne ((monoConvert samples).map (gainClamp gain))

/-! ## writer_thread quantization (src/writer.rs:45-63) -/

/-- Truncation toward zero, the rounding Rust's float→integer `as` cast
performs. -/
def truncToZero (q : ℚ) : ℤ := if 0 ≤ q then ⌊q⌋ else ⌈q⌉

/-- Rust `as i16` on an f32 value: truncate toward zero, saturating at the
`i16` range. -/
def rustAsI16 (q : ℚ) : ℤ := max (-32768) (min 32767 (truncToZero q))

/-- The per-sample quantization at src/writer.rs:49 and :60:
`(sample.clamp(-1.0, 1.0) * i16::MAX as f32) as i16`. -/
def writerQuantize (s : ℚ) : ℤ := rustAsI16 (ratClamp s (-1) 1 * 32767)

/-- The 16-bit values written for one drained batch
(src/writer.rs:47-51 and :58-62). -/
def writerDrainBatch (samples : List ℚ) : List ℤ :=
  samples.map writerQuantize

/-- The spec's claimed quantizer: `round(clamp(s, -1, 1) * INT16_MAX)`,
rounding to the nearest integer. -/
def specRoundQuantize (s : ℚ) : ℤ := round (ratClamp s (-1) 1 * 32767)

/-- The quantizer the code actually implements, stated in the spec's shape:
truncation toward zero of `clamp(s, -1, 1) * INT16_MAX`. -/
def specTruncQuantize (s : ℚ) : ℤ := truncToZero (ratClamp s (-1) 1 * 32767)

/-! ## realtime_recognition_thread (src/recognition.rs:180-207) -/

/-- The `RealtimeRecognizer` trait (src/recognition.rs:29-37), as a state
machine over an abstract engine state `σ`: `process_audio` feeds one batch,
`finalize` flushes at end of input; both are fallible. -/
structure RecEngine (σ : Type) where
  process_audio : σ → List ℚ → Except String σ
  finalize : σ → Except String σ

/-- The pop-and-process loops of `realtime_recognition_thread`
(src/recognition.rs:190-201): every popped batch is fed through
`recognizer.process_audio(&samples)?` — the `?` aborts the whole function at
the first error.  Returns the engine outcome and the batches actually
processed, in order. -/
def recognitionFeed {σ : Type} (eng : RecEngine σ) :
    σ → List (List ℚ) → Except String σ × List (List ℚ)
  | s, [] => (.ok s, [])
  | s, b :: rest =>
    match eng.process_audio s b with
    | .ok s' =>
      let r := recognitionFeed eng s' rest
      (r.1, b :: r.2)
    | .error e => (.error e, [])

/-- `realtime_recognition_thread` after engine construction
(src/recognition.rs:190-206): the main loop feeds the batches popped before
the stop flag was observed, the drain loop feeds the remaining queued
batches, then `recognizer.finalize()?` runs.  Returns the thread outcome,
the batches fed to `process_audio`, and the number of `finalize`
invocations. -/
def realtimeRecognitionThread {σ : Type} (eng : RecEngine σ)
    (mainBatches drainBatches : List (List ℚ)) (s : σ) :
    Except String σ × List (List ℚ) × ℕ :=
  let r := recognitionFeed eng s (mainBatches ++ drainBatches)
  match r.1 with
  | .ok s' =>
    match eng.finalize s' with
    | .ok s2 => (.ok s2, r.2, 1)
    | .error e => (.error e, r.2, 1)
  | .error e => (.error e, r.2, 0)

/-- A concrete engine whose second `process_audio` call fails: state counts
processed batches; the call with state 1 returns an error. -/
def failingEngine : RecEngine ℕ where
  process_audio := fun s _ =>
    if s = 1 then .error "recognition failed" else .ok (s + 1)
  finalize := fun s => .ok s

/-- A concrete engine that always succeeds. -/
def countingEngine : RecEngine ℕ where
  process_audio := fun s _ => .ok (s + 1)
  finalize := fun s => .ok s

/-! ## Session artifact paths (src/main.rs:116-120)

`RecordingSession::start` formats `Local::now()` once into `base_name` and
derives both artifact paths from it; the wav path is handed to the writer
thread (src/main.rs:127-130).  The timestamp is modelled as an opaque
string `ts`. -/

/-- Modelled from the spec: `writer::build_wav_path(output_dir, base_name)`,
called at src/main.rs:118 but absent from the snapshot's src/writer.rs (that
file holds a stale 3-argument `writer_thread` that generates its own
filename and cannot typecheck against the 4-argument call at
src/main.rs:130, so the writer.rs revision main.rs compiles against is
missing).  Per the spec (§3 "Output artifacts", §4.6 step 3) it joins the
output directory with the timestamp-derived base name and the `.wav`
extension, mirroring the transcript path construction one line below it. -/
def build_wav_path (dir base : String) : String :=
  dir ++ "/" ++ (base ++ ".wav")

/-- Transcript path construction (src/main.rs:119-120):
`PathBuf::from(&config.output_directory).join(format!("{}_real-time.txt",
base_name))`. -/
def realtime_txt_path (dir base : String) : String :=
  dir ++ "/" ++ (base ++ "_real-time.txt")

/-- The two artifact paths computed by `RecordingSession::start`
(src/main.rs:116-120) from the single formatted session-start timestamp. -/
def sessionPaths (dir ts : String) : String × String :=
  (build_wav_path dir ts, realtime_txt_path dir ts)

/-! ### Queue lemmas -/

lemma push_capacity {α : Type} (q : BlockingQueue α) (items : List α)
    (h : q.queue.length ≤ q.max_size) :
    (q.push items).2.queue.length ≤ q.max_size ∧
      (q.push items).2.max_size = q.max_size := by
  unfold BlockingQueue.push
  split
  · exact ⟨h, rfl⟩
  · next hle =>
    refine ⟨?_, rfl⟩
    simpa [List.length_append] using Nat.le_of_not_lt hle

lemma push_single_capacity {α : Type} (q : BlockingQueue α) (item : α)
    (h : q.queue.length ≤ q.max_size) :
    (q.push_single item).2.queue.length ≤ q.max_size ∧
      (q.push_single item).2.max_size = q.max_size := by
  unfold BlockingQueue.push_single
  split
  · exact ⟨h, rfl⟩
  · next hlt =>
    refine ⟨?_, rfl⟩
    have : q.queue.length < q.max_size := Nat.lt_of_not_le hlt
    simpa [List.length_append] using this

/-- The capacity invariant `len ≤ max_size` is preserved by every queue
operation of a trace, and the capacity itself never changes. -/
lemma step_invariant {α : Type} (t : QTrace α) (op : QOp α)
    (h : t.q.queue.length ≤ t.q.max_size) :
    (t.step op).q.queue.length ≤ (t.step op).q.max_size ∧
      (t.step op).q.max_size = t.q.max_size := by
  cases op with
  | push items =>
    have hc := push_capacity t.q items h
    exact ⟨hc.2 ▸ hc.1, hc.2⟩
  | pushSingle item =>
    have hc := push_single_capacity t.q item h
    exact ⟨hc.2 ▸ hc.1, hc.2⟩
  | popBatch mc =>
    simp only [QTrace.step]
    split
    · exact ⟨h, rfl⟩
    · refine ⟨?_, rfl⟩
      simp only [BlockingQueue.pop_batch, List.length_drop]
      omega
  | tryPopBatch mc =>
    simp only [QTrace.step, BlockingQueue.try_pop_batch]
    split
    · exact ⟨h, rfl⟩
    · refine ⟨?_, rfl⟩
      simp only [List.length_drop]
      omega

lemma run_invariant {α : Type} (ops : List (QOp α)) (t : QTrace α)
    (h : t.q.queue.length ≤ t.q.max_size) :
    (t.run ops).q.queue.length ≤ (t.run ops).q.max_size ∧
      (t.run ops).q.max_size = t.q.max_size := by
  induction ops generalizing t with
  | nil => exact ⟨h, rfl⟩
  | cons op rest ih =>
    have hs := step_invariant t op h
    have := ih (t.step op) hs.1
    exact ⟨this.1, this.2.trans hs.2⟩

/-- Claim C1: For every `BoundedQueue` created with capacity `max_size` and every
sequence of `push`, `push_single`, `pop_batch` and `try_pop_batch` operations,
`len() ≤ max_size` holds after every operation (quantifying over all operation
lists covers every intermediate point of every longer trace). -/
theorem C1_len_le_max_size (α : Type) (max_size : ℕ) (ops : List (QOp α)) :
    ((QTrace.init α max_size).run ops).q.len ≤ max_size := by
  have h0 : (QTrace.init α max_size).q.queue.length ≤
      (QTrace.init α max_size).q.max_size := by
    simp [QTrace.init, BlockingQueue.new]
  have := run_invariant ops (QTrace.init α max_size) h0
  have hmax : ((QTrace.init α max_size).run ops).q.max_size = max_size := this.2
  simpa [BlockingQueue.len, hmax] using this.1

/-- Claim C2: a `push` whose batch does not fit in the remaining capacity
returns `false` and leaves the queue completely unchanged — no partial
insert.  (The witness instantiates the end-to-end scenario: capacity 100,
three pushes of 40 items with no pops; the third returns `false` and exactly
the first 80 items are enqueued.) -/
theorem C2_push_overflow_rejects_whole_batch {α : Type} (q : BlockingQueue α)
    (items : List α) (h : q.queue.length + items.length > q.max_size) :
    q.push items = (false, q) := by
  simp [BlockingQueue.push, h]

/-- Witness for C2: capacity 100, three consecutive pushes of the 40-item
batches `[0..40)`, `[40..80)`, `[80..120)` and no pops: after two accepted
pushes the queue holds exactly `[0..80)`, and the third push returns `false`
leaving the queue unchanged. -/
theorem C2_push_overflow_witness :
    ((((BlockingQueue.new ℕ 100).push (List.range' 0 40)).2.push
        (List.range' 40 40)).2.queue = List.range' 0 80) ∧
    ((((BlockingQueue.new ℕ 100).push (List.range' 0 40)).2.push
        (List.range' 40 40)).2.push (List.range' 80 40) =
      (false,
        (((BlockingQueue.new ℕ 100).push (List.range' 0 40)).2.push
          (List.range' 40 40)).2)) :=
  ⟨by decide,
   C2_push_overflow_rejects_whole_batch _ (List.range' 80 40) (by decide)⟩

/-- Counterexample to C6 as stated: `pop_batch(0)` on the non-empty queue
`[0]` returns the empty sequence, so "`pop_batch(max_count)` never returns an
empty sequence" fails at `max_count = 0` (the code pops
`min(len, max_count) = 0` items after the blocking wait ends). -/
theorem C6_pop_batch_zero_counterexample :
    ((⟨[0], 1⟩ : BlockingQueue ℕ).pop_batch 0).1 = [] ∧
      (⟨[0], 1⟩ : BlockingQueue ℕ).queue ≠ [] := by
  decide

/-- Claim C6 (amended): for every queue state at the moment the call
proceeds, `pop_batch(max_count)` with `max_count ≥ 1` never returns an empty
sequence; `try_pop_batch(max_count)` returns `none` iff the queue was empty
at call time, and otherwise removes and returns exactly
`min(len, max_count)` oldest items preserving order; `pop_batch` (which
blocks until the queue is non-empty) removes and returns the same prefix. -/
theorem C6_pop_semantics {α : Type} (q : BlockingQueue α) (mc : ℕ) :
    (q.queue ≠ [] → 1 ≤ mc → (q.pop_batch mc).1 ≠ []) ∧
    ((q.try_pop_batch mc).1 = none ↔ q.queue = []) ∧
    (q.queue ≠ [] →
      (q.try_pop_batch mc).1 =
          some (q.queue.take (min q.queue.length mc)) ∧
        (q.try_pop_batch mc).2.queue =
          q.queue.drop (min q.queue.length mc)) ∧
    (q.pop_batch mc).1 = q.queue.take (min q.queue.length mc) ∧
    (q.pop_batch mc).1.length = min q.queue.length mc ∧
    (q.pop_batch mc).2.queue = q.queue.drop (min q.queue.length mc) := by
  refine ⟨?_, ?_, ?_, rfl, ?_, rfl⟩
  · intro hne hmc
    have hlen : 0 < q.queue.length := List.length_pos.mpr hne
    simp only [BlockingQueue.pop_batch, ne_eq, ← List.length_pos,
      List.length_take]
    omega
  · constructor
    · intro h
      by_contra hne
      simp [BlockingQueue.try_pop_batch, List.isEmpty_iff, hne] at h
    · intro h
      simp [BlockingQueue.try_pop_batch, h]
  · intro hne
    simp [BlockingQueue.try_pop_batch, List.isEmpty_iff, hne]
  · simp only [BlockingQueue.pop_batch, List.length_take]
    omega

/-- Witness for C6: on the queue `[5, 6, 7]` with `max_count = 2`,
`pop_batch` returns a non-empty batch and `try_pop_batch` returns
`some [5, 6]`, leaving `[7]`. -/
theorem C6_pop_semantics_witness :
    ((⟨[5, 6, 7], 10⟩ : BlockingQueue ℕ).pop_batch 2).1 ≠ [] ∧
    ((⟨[5, 6, 7], 10⟩ : BlockingQueue ℕ).try_pop_batch 2).1 = some [5, 6] ∧
    ((⟨[5, 6, 7], 10⟩ : BlockingQueue ℕ).try_pop_batch 2).2.queue = [7] := by
  refine ⟨(C6_pop_semantics ⟨[5, 6, 7], 10⟩ 2).1 (by decide) (by decide),
    ?_, ?_⟩
  · have h :=
      ((C6_pop_semantics (⟨[5, 6, 7], 10⟩ : BlockingQueue ℕ) 2).2.2.1
        (by decide)).1
    simpa using h
  · have h :=
      ((C6_pop_semantics (⟨[5, 6, 7], 10⟩ : BlockingQueue ℕ) 2).2.2.1
        (by decide)).2
    simpa using h

/-! ### FIFO reconstruction -/

lemma step_fifo {α : Type} (t : QTrace α) (op : QOp α) (init : List α)
    (h : t.pops.flatten ++ t.q.queue = init ++ t.accepted.flatten) :
    (t.step op).pops.flatten ++ (t.step op).q.queue =
      init ++ (t.step op).accepted.flatten := by
  cases op with
  | push items =>
    simp only [QTrace.step, BlockingQueue.push]
    split
    · exact h
    · simp only [if_true]
      simp only [List.flatten_append, List.flatten, List.append_nil]
      rw [← List.append_assoc, h, List.append_assoc]
  | pushSingle item =>
    simp only [QTrace.step, BlockingQueue.push_single]
    split
    · exact h
    · simp only [if_true]
      simp only [List.flatten_append, List.flatten, List.append_nil]
      rw [← List.append_assoc, h, List.append_assoc]
  | popBatch mc =>
    simp only [QTrace.step]
    split
    · exact h
    · simp only [BlockingQueue.pop_batch, List.flatten_append, List.flatten,
        List.append_nil, List.append_assoc, List.take_append_drop]
      simpa [List.append_assoc] using h
  | tryPopBatch mc =>
    simp only [QTrace.step, BlockingQueue.try_pop_batch]
    split
    · simpa using h
    · simp only [Option.toList_some, List.flatten_append, List.flatten,
        List.append_nil, List.append_assoc, List.take_append_drop]
      simpa [List.append_assoc] using h

lemma run_fifo {α : Type} (ops : List (QOp α)) (t : QTrace α) (init : List α)
    (h : t.pops.flatten ++ t.q.queue = init ++ t.accepted.flatten) :
    (t.run ops).pops.flatten ++ (t.run ops).q.queue =
      init ++ (t.run ops).accepted.flatten := by
  induction ops generalizing t with
  | nil => exact h
  | cons op rest ih => exact ih (t.step op) (step_fifo t op init h)

/-- Claim C7: single-producer FIFO conservation.  For every interleaving of
pushes and pops on one queue started empty, the concatenation of all batches
returned by pops, in pop order, followed by what is still enqueued, equals
the concatenation of the accepted pushed batches in push order — so once the
queue has been fully drained, the pops reconstruct exactly the accepted
pushes: no item duplicated, none lost except by explicit overflow
rejection. -/
theorem C7_fifo_reconstruction (α : Type) (max_size : ℕ)
    (ops : List (QOp α)) :
    ((QTrace.init α max_size).run ops).pops.flatten ++
        ((QTrace.init α max_size).run ops).q.queue =
      ((QTrace.init α max_size).run ops).accepted.flatten ∧
    (((QTrace.init α max_size).run ops).q.queue = [] →
      ((QTrace.init α max_size).run ops).pops.flatten =
        ((QTrace.init α max_size).run ops).accepted.flatten) := by
  have h := run_fifo ops (QTrace.init α max_size) []
    (by simp [QTrace.init, BlockingQueue.new])
  simp only [List.nil_append] at h
  refine ⟨h, fun hempty => ?_⟩
  simpa [hempty] using h

/-- Witness for C7: pushing `[1, 2, 3]` then popping everything yields pops
whose concatenation is `[1, 2, 3]`, the accepted push. -/
theorem C7_fifo_reconstruction_witness :
    ((QTrace.init ℕ 10).run [QOp.push [1, 2, 3], QOp.popBatch 5]).pops.flatten =
      ((QTrace.init ℕ 10).run
        [QOp.push [1, 2, 3], QOp.popBatch 5]).accepted.flatten :=
  (C7_fifo_reconstruction ℕ 10 [QOp.push [1, 2, 3], QOp.popBatch 5]).2
    (by decide)

/-! ### Stereo-to-mono parity -/

lemma avgPairs_length : ∀ l : List ℚ, (avgPairs l).length = (l.length + 1) / 2
  | [] => rfl
  | [_] => by norm_num [avgPairs]
  | _ :: _ :: rest => by
    simp only [avgPairs, List.length_cons, avgPairs_length rest]
    omega

lemma avgPairs_ne_nil : ∀ l : List ℚ, l ≠ [] → avgPairs l ≠ []
  | [], h => absurd rfl h
  | [_], _ => by simp [avgPairs]
  | _ :: _ :: _, _ => by simp [avgPairs]

lemma monoConvert_ne_nil (l : List ℚ) (h : l ≠ []) : monoConvert l ≠ [] := by
  unfold monoConvert
  split
  · exact avgPairs_ne_nil l h
  · exact h

/-- Claim C10: the stereo→mono channel reduction of `resampler_thread` is
decided solely by batch-length parity: an even-length batch is always
pairwise-averaged (halving its length, and hence the duration it
represents, even if it was already mono), and an odd-length batch passes
through unaveraged.  The capture device's channel count never enters the
decision: `monoConvert` has no channel parameter at all. -/
theorem C10_parity_decides_averaging (samples : List ℚ) :
    (samples.length % 2 = 0 →
      monoConvert samples = avgPairs samples ∧
        2 * (monoConvert samples).length = samples.length) ∧
    (samples.length % 2 = 1 → monoConvert samples = samples) := by
  constructor
  · intro h
    refine ⟨by simp [monoConvert, h], ?_⟩
    simp only [monoConvert, h, if_pos, avgPairs_length]
    omega
  · intro h
    simp [monoConvert, h]

/-- Witness for C10: the even-length constant batch `[1, 1, 1, 1]` — already
mono — is still pairwise-averaged down to `[1, 1]`, while the odd-length
batch `[1, 2, 3]` passes through unchanged. -/
theorem C10_parity_witness :
    monoConvert [1, 1, 1, 1] = avgPairs [1, 1, 1, 1] ∧
      2 * (monoConvert ([1, 1, 1, 1] : List ℚ)).length = 4 ∧
      monoConvert [1, 2, 3] = [1, 2, 3] := by
  have he := (C10_parity_decides_averaging [1, 1, 1, 1]).1 (by decide)
  have ho := (C10_parity_decides_averaging [1, 2, 3]).2 (by decide)
  exact ⟨he.1, he.2, ho⟩

/-! ### Gain and clamping ahead of the carry-over buffer -/

lemma drainChunks_buffer_suffix {ρ : Type}
    (processOne : ρ → List ℚ → ρ × List ℚ) (chunk : ℕ) :
    ∀ (n : ℕ) (buf : List ℚ) (rs : ρ), buf.length ≤ n →
      ∃ k, (drainChunks processOne chunk rs buf).2.1 = buf.drop (chunk * k) := by
  intro n
  induction n with
  | zero =>
    intro buf rs hn
    rw [drainChunks]
    split
    · next h => exact absurd h.2 (by omega)
    · exact ⟨0, by simp⟩
  | succ n ih =>
    intro buf rs hn
    rw [drainChunks]
    split
    · next h =>
      obtain ⟨k, hk⟩ :=
        ih (buf.drop chunk) (processOne rs (buf.take chunk)).1
          (by simp only [List.length_drop]; omega)
      refine ⟨k + 1, ?_⟩
      simp only [hk, List.drop_drop]
      congr 1
      ring
    · exact ⟨0, by simp⟩

/-- Claim C8: in `resampler_thread`, every sample entering the resampler's
internal carry-over buffer equals `clamp(in * gain, -1, 1)` of the mono
sample it came from: gain is applied per sample, with hard clamping to
`[-1, 1]`, before buffering.  Consequently the carry-over buffer after a
step is a chunk-aligned suffix of the old buffer followed by exactly those
clamped values. -/
theorem C8_gain_clamp_before_buffering {ρ : Type}
    (processOne : ρ → List ℚ → ρ × List ℚ) (gain : ℚ)
    (st : AudioResampler ρ) (samples : List ℚ) (hne : samples ≠ []) :
    resamplerThreadStep processOne gain st samples =
      st.process processOne
        ((monoConvert samples).map (fun s => ratClamp (s * gain) (-1) 1)) ∧
    (∀ i (h : i < (monoConvert samples).length),
      ((monoConvert samples).map (gainClamp gain)).get ⟨i, by simpa using h⟩ =
        ratClamp ((monoConvert samples).get ⟨i, h⟩ * gain) (-1) 1) ∧
    ∃ k, (resamplerThreadStep processOne gain st samples).1.buffer =
      (st.buffer ++ (monoConvert samples).map (gainClamp gain)).drop
        (st.chunk_size * k) := by
  refine ⟨rfl, ?_, ?_⟩
  · intro i h
    simp [gainClamp, List.get_eq_getElem]
  · have hmn : (monoConvert samples).map (gainClamp gain) ≠ [] := by
      simpa using monoConvert_ne_nil samples hne
    unfold resamplerThreadStep AudioResampler.process
    rw [if_neg (by simpa [List.isEmpty_iff] using hmn)]
    exact drainChunks_buffer_suffix processOne st.chunk_size
      (st.buffer ++ (monoConvert samples).map (gainClamp gain)).length _ _ le_rfl

/-- Witness for C8: a concrete step — identity resampler state, gain 4,
chunk size 2 — on the even-length batch `[1/8, 1/2]`: what is buffered is
exactly the averaged batch with per-sample gain and clamping applied. -/
theorem C8_gain_clamp_witness :
    resamplerThreadStep (fun (r : Unit) (c : List ℚ) => (r, c)) 4
        ⟨(), 2, []⟩ [1/8, 1/2] =
      AudioResampler.process (fun (r : Unit) (c : List ℚ) => (r, c))
        ⟨(), 2, []⟩
        ((monoConvert [1/8, 1/2]).map (fun s => ratClamp (s * 4) (-1) 1)) :=
  (C8_gain_clamp_before_buffering (fun (r : Unit) (c : List ℚ) => (r, c)) 4
    ⟨(), 2, []⟩ [1/8, 1/2] (by simp)).1

/-! ### Resampler flush -/

/-- Claim C5: on a state holding a non-empty partial frame of
`r = buffer.length < chunk_size` samples, `flush()` zero-pads the buffer to
exactly `chunk_size` samples, resamples that single padded frame, empties
the internal buffer, and truncates the output to at most
`⌊r * output_frames_next / chunk_size⌋` samples — proportional to the real,
unpadded sample count; and on an empty buffer `flush()` returns an empty
output and leaves the state unchanged. -/
theorem C5_flush_partial_frame {ρ : Type}
    (processOne : ρ → List ℚ → ρ × List ℚ) (ofn : ρ → ℕ)
    (st : AudioResampler ρ) (hne : st.buffer ≠ [])
    (hlt : st.buffer.length < st.chunk_size) :
    vecResize st.buffer st.chunk_size 0 =
      st.buffer ++ List.replicate (st.chunk_size - st.buffer.length) 0 ∧
    (vecResize st.buffer st.chunk_size 0).length = st.chunk_size ∧
    (st.flush processOne ofn).1.buffer = [] ∧
    (st.flush processOne ofn).2 =
      (processOne st.rs (vecResize st.buffer st.chunk_size 0)).2.take
        (min
          (st.buffer.length *
              ofn (processOne st.rs (vecResize st.buffer st.chunk_size 0)).1 /
            st.chunk_size)
          (processOne st.rs (vecResize st.buffer st.chunk_size 0)).2.length) ∧
    (st.flush processOne ofn).2.length ≤
      st.buffer.length *
          ofn (processOne st.rs (vecResize st.buffer st.chunk_size 0)).1 /
        st.chunk_size ∧
    (∀ st' : AudioResampler ρ, st'.buffer = [] →
      st'.flush processOne ofn = (st', [])) := by
  have hie : st.buffer.isEmpty = false := by
    simpa [List.isEmpty_iff] using hne
  refine ⟨?_, ?_, ?_, ?_, ?_, ?_⟩
  · unfold vecResize
    rw [List.take_of_length_le (le_of_lt hlt)]
  · simp only [vecResize, List.length_append, List.length_take,
      List.length_replicate]
    omega
  · unfold AudioResampler.flush
    rw [if_neg (by simp [hie])]
  · unfold AudioResampler.flush
    rw [if_neg (by simp [hie])]
  · unfold AudioResampler.flush
    rw [if_neg (by simp [hie])]
    simp only [List.length_take]
    omega
  · intro st' h
    unfold AudioResampler.flush
    rw [if_pos (by simp [h])]

/-- Witness for C5: identity resampler state, `output_frames_next = 2048`,
chunk size 1024, a single leftover sample: the flush empties the buffer and
emits at most `1 * 2048 / 1024 = 2` samples. -/
theorem C5_flush_witness :
    ((⟨(), 1024, [1/2]⟩ : AudioResampler Unit).flush
        (fun r c => (r, c)) (fun _ => 2048)).1.buffer = [] ∧
    ((⟨(), 1024, [1/2]⟩ : AudioResampler Unit).flush
        (fun r c => (r, c)) (fun _ => 2048)).2.length ≤ 2 := by
  have h := C5_flush_partial_frame (fun (r : Unit) (c : List ℚ) => (r, c))
    (fun _ => 2048) ⟨(), 1024, [1/2]⟩ (by simp) (by simp)
  exact ⟨h.2.2.1, by simpa using h.2.2.2.2.1⟩

/-! ### Writer quantization -/

lemma ratClamp_bounds (s : ℚ) :
    -1 ≤ ratClamp s (-1) 1 ∧ ratClamp s (-1) 1 ≤ 1 := by
  unfold ratClamp
  split
  · norm_num
  · split
    · norm_num
    · next h1 h2 => exact ⟨not_lt.mp h1, not_lt.mp h2⟩

lemma truncToZero_bounds (q : ℚ) (hn : -32767 ≤ q) (hp : q ≤ 32767) :
    -32767 ≤ truncToZero q ∧ truncToZero q ≤ 32767 := by
  unfold truncToZero
  split
  · next h =>
    refine ⟨?_, ?_⟩
    · have h0 : (0 : ℤ) ≤ ⌊q⌋ := Int.le_floor.mpr (by exact_mod_cast h)
      omega
    · have : (⌊q⌋ : ℚ) ≤ 32767 := le_trans (Int.floor_le q) hp
      exact_mod_cast this
  · next h =>
    push_neg at h
    refine ⟨?_, ?_⟩
    · have : (-32767 : ℚ) ≤ ⌈q⌉ := le_trans hn (Int.le_ceil q)
      exact_mod_cast this
    · have h0 : ⌈q⌉ ≤ (0 : ℤ) := Int.ceil_le.mpr (by exact_mod_cast h.le)
      omega

lemma clamp_scale_bounds (s : ℚ) :
    -32767 ≤ ratClamp s (-1) 1 * 32767 ∧ ratClamp s (-1) 1 * 32767 ≤ 32767 := by
  have hb := ratClamp_bounds s
  constructor <;> nlinarith [hb.1, hb.2]

lemma writerQuantize_eq_trunc (s : ℚ) : writerQuantize s = specTruncQuantize s := by
  unfold writerQuantize specTruncQuantize rustAsI16
  have hs := clamp_scale_bounds s
  have ht := truncToZero_bounds (ratClamp s (-1) 1 * 32767) hs.1 hs.2
  omega

/-- Counterexample to C4 as stated: at the sample `s = 1/4` (exact in f32,
with `0.25 * 32767.0 = 8191.75` also exact in f32) the code's cast
`as i16` truncates toward zero and writes `8191`, while
`round(clamp(s, -1, 1) * INT16_MAX) = round(8191.75) = 8192`. -/
theorem C4_round_counterexample :
    writerQuantize (1/4) = 8191 ∧ specRoundQuantize (1/4) = 8192 ∧
      writerQuantize (1/4) ≠ specRoundQuantize (1/4) := by
  have h1 : writerQuantize (1/4) = 8191 := by
    norm_num [writerQuantize, rustAsI16, truncToZero, ratClamp]
  have h2 : specRoundQuantize (1/4) = 8192 := by
    norm_num [specRoundQuantize, ratClamp, round_eq]
  exact ⟨h1, h2, by omega⟩

/-- Claim C4 (amended): each 16-bit value the Persistence Consumer writes
equals the truncation toward zero (not the rounding) of
`clamp(s, -1, 1) * INT16_MAX`; every written value lies in
`[-32767, 32767]`, so the saturating `as i16` cast never actually
saturates. -/
theorem C4_quantization_truncates (samples : List ℚ) :
    writerDrainBatch samples = samples.map specTruncQuantize ∧
    ∀ z ∈ writerDrainBatch samples, -32767 ≤ z ∧ z ≤ 32767 := by
  constructor
  · exact congrArg (fun f => samples.map f) (funext writerQuantize_eq_trunc)
  · intro z hz
    simp only [writerDrainBatch, List.mem_map] at hz
    obtain ⟨s, _, rfl⟩ := hz
    have hs := clamp_scale_bounds s
    have ht := truncToZero_bounds (ratClamp s (-1) 1 * 32767) hs.1 hs.2
    unfold writerQuantize rustAsI16
    omega

/-- Witness for C4 (amended): the batch `[1/4, -1]` quantizes to the
truncated values, and the value written for `1/4` is within range. -/
theorem C4_quantization_truncates_witness :
    writerDrainBatch [1/4, -1] =
        [specTruncQuantize (1/4), specTruncQuantize (-1)] ∧
      -32767 ≤ writerQuantize (1/4) ∧ writerQuantize (1/4) ≤ 32767 := by
  have h := C4_quantization_truncates [1/4, -1]
  have hm : writerQuantize (1/4) ∈ writerDrainBatch [1/4, -1] := by
    simp [writerDrainBatch]
  exact ⟨by simpa using h.1, (h.2 _ hm).1, (h.2 _ hm).2⟩

/-! ### Recognition consumer -/

/-- Counterexample to C3 as stated: with an engine whose second
`process_audio` call fails, the recognition consumer aborts at that batch —
the error becomes the thread's return value (propagated, not skipped), the
remaining batches (including the entire drain phase) are never processed,
and `finalize()` is called zero times, not once. -/
theorem C3_error_propagation_counterexample :
    realtimeRecognitionThread failingEngine [[1], [2]] [[3]] 0 =
      (Except.error "recognition failed", [[1]], 0) := by
  rfl

lemma recognitionFeed_all_ok {σ : Type} (eng : RecEngine σ)
    (hok : ∀ t b, ∃ t', eng.process_audio t b = .ok t') :
    ∀ (batches : List (List ℚ)) (s : σ),
      ∃ s', recognitionFeed eng s batches = (.ok s', batches) := by
  intro batches
  induction batches with
  | nil => intro s; exact ⟨s, rfl⟩
  | cons b rest ih =>
    intro s
    obtain ⟨t', ht⟩ := hok s b
    obtain ⟨s', hs⟩ := ih t'
    exact ⟨s', by simp [recognitionFeed, ht, hs]⟩

/-- Claim C3 (amended): when no `process_audio` call fails, the recognition
consumer feeds every batch — the main-loop batches followed by all batches
drained after stop — through `process_audio` in order and then calls
`finalize()` exactly once; but a failing `process_audio` call is propagated
out of the consumer (the `?` operator makes it the thread's return value),
aborting the drain and skipping `finalize` entirely. -/
theorem C3_drain_and_finalize (σ : Type) (eng : RecEngine σ)
    (mainB drainB : List (List ℚ)) (s : σ) :
    ((∀ t b, ∃ t', eng.process_audio t b = .ok t') →
      (realtimeRecognitionThread eng mainB drainB s).2.1 = mainB ++ drainB ∧
        (realtimeRecognitionThread eng mainB drainB s).2.2 = 1) ∧
    (∀ e done, recognitionFeed eng s (mainB ++ drainB) = (.error e, done) →
      realtimeRecognitionThread eng mainB drainB s = (.error e, done, 0)) := by
  constructor
  · intro hok
    obtain ⟨s', hs⟩ := recognitionFeed_all_ok eng hok (mainB ++ drainB) s
    unfold realtimeRecognitionThread
    cases hfin : eng.finalize s' <;> simp [hs, hfin]
  · intro e done h
    unfold realtimeRecognitionThread
    simp [h]

/-- Witness for C3 (amended): an always-succeeding engine processes the
main batch `[1]` and the drained batch `[2]` in order and finalizes once. -/
theorem C3_drain_and_finalize_witness :
    (realtimeRecognitionThread countingEngine [[1]] [[2]] 0).2.1 =
        [[1], [2]] ∧
      (realtimeRecognitionThread countingEngine [[1]] [[2]] 0).2.2 = 1 :=
  (C3_drain_and_finalize ℕ countingEngine [[1]] [[2]] 0).1
    (fun t _ => ⟨t + 1, rfl⟩)

/-! ### Session artifact paths -/

/-- Claim C9: the completed-recording audio file path and the real-time
transcript file path are both deterministically derived (they are values of
pure functions) from the single session-start timestamp `ts` formatted once
by `RecordingSession::start`, so the two artifacts of one session share one
base filename. -/
theorem C9_paths_share_base (dir ts : String) :
    ∃ base, base = ts ∧
      sessionPaths dir ts =
        (build_wav_path dir base, realtime_txt_path dir base) ∧
      build_wav_path dir base = dir ++ "/" ++ (base ++ ".wav") ∧
      realtime_txt_path dir base = dir ++ "/" ++ (base ++ "_real-time.txt") :=
  ⟨ts, rfl, rfl, rfl, rfl⟩

end PSTT
